import Mathlib

/-!
Verification of the Raft consensus peer in `project-dss/raft/src/raft/`
(`raft_server.rs`, `node.rs`, `mod.rs`), via a shallow embedding in Lean 4.

The repository files `raft_peer.rs`, `defs.rs`, `errors.rs` and
`persister.rs` are declared in `mod.rs` but their bodies are not part of
the source tree available here; the peer-level handlers they contain
(`handle_request_vote`, `handle_append_logs`, `handle_append_logs_reply`,
`convert_to_candidate`, commit advancement) are modelled from the
specification, and each such definition is marked `Modelled from the
spec:` in its doc comment.  Everything about the event loop, the three
timers and the `Node` handle is embedded directly from `raft_server.rs`
and `node.rs`.

Machine integers (`u64`, `usize`) are modelled as `Nat`: none of the
verified paths can overflow a 64-bit counter under the modelled
operations, and the source performs no wrapping arithmetic on them.
Byte buffers are modelled as `List Nat`.
-/

namespace Raft

/-- A log entry `{ term, index, command }` (spec §3; `LogEntry` lives in the
missing `defs.rs`).  `index` is 1-based; entry 0 is a sentinel with term 0. -/
structure LogEntry where
  term : Nat
  index : Nat
  command : List Nat
  deriving Repr, DecidableEq

/-- The peer role (spec §3). -/
inductive Role where
  | Follower
  | Candidate
  | Leader
  deriving Repr, DecidableEq

/-- The Server-owned peer state (spec §3, `RaftPeer` in the missing
`raft_peer.rs`).  `peersCount` is the fixed cluster size; `next_index` and
`match_index` are per-peer lists indexed by peer index. -/
structure RaftPeer where
  me : Nat
  peersCount : Nat
  current_term : Nat
  voted_for : Option Nat
  log : List LogEntry
  commit_index : Nat
  last_applied : Nat
  next_index : List Nat
  match_index : List Nat
  role : Role
  deriving Repr, DecidableEq

/-- Index of the last log entry; with the sentinel at position 0 this is
`log.length - 1`. -/
def lastLogIndex (p : RaftPeer) : Nat := p.log.length - 1

/-- Term stored at position `i` of a log (0 when out of range, matching the
sentinel convention). -/
def logTermAt (log : List LogEntry) (i : Nat) : Nat :=
  match log[i]? with
  | some e => e.term
  | none => 0

/-- Term of the last log entry. -/
def lastLogTerm (p : RaftPeer) : Nat := logTermAt p.log (lastLogIndex p)

/-- Modelled from the spec: rule 5 (§3, invariant 5; implemented in the
missing `raft_peer.rs`): on observing a term strictly greater than
`current_term`, adopt it, clear `voted_for` and become Follower; otherwise
leave the state unchanged. -/
def adoptTermIfNewer (p : RaftPeer) (t : Nat) : RaftPeer :=
  if p.current_term < t then
    { p with current_term := t, voted_for := none, role := Role.Follower }
  else p

/-- Arguments of the `RequestVote` RPC (spec §6; `RequestVoteArgs` lives in
the generated proto / missing `defs.rs`). -/
structure RequestVoteArgs where
  term : Nat
  candidate_id : Nat
  last_log_index : Nat
  last_log_term : Nat
  deriving Repr, DecidableEq

/-- Reply of the `RequestVote` RPC (spec §6). -/
structure RequestVoteReply where
  term : Nat
  vote_granted : Bool
  deriving Repr, DecidableEq

/-- Modelled from the spec (§4.2): the candidate's log is at least as
up-to-date as ours. -/
def upToDate (p : RaftPeer) (args : RequestVoteArgs) : Bool :=
  decide (lastLogTerm p < args.last_log_term) ||
    (decide (args.last_log_term = lastLogTerm p) &&
      decide (lastLogIndex p ≤ args.last_log_index))

/-- Modelled from the spec (§4.2): the grant condition evaluated after any
term adoption: `voted_for ∈ {None, args.candidate}` and the candidate's log
is at least as up-to-date. -/
def voteGrantCond (p : RaftPeer) (args : RequestVoteArgs) : Bool :=
  (match p.voted_for with
   | none => true
   | some c => decide (c = args.candidate_id)) && upToDate p args

/-- Modelled from the spec (§4.2): the part of the `RequestVote` handler
that runs after the term check and adoption. -/
def requestVoteCore (p : RaftPeer) (args : RequestVoteArgs) :
    RaftPeer × RequestVoteReply :=
  if voteGrantCond p args then
    ({ p with voted_for := some args.candidate_id },
      { term := p.current_term, vote_granted := true })
  else
    (p, { term := p.current_term, vote_granted := false })

/-- Modelled from the spec (§4.2): `RaftPeer::handle_request_vote` of the
missing `raft_peer.rs`.  Rejects stale terms, applies rule 5, then grants
iff the vote condition holds. -/
def handle_request_vote (p : RaftPeer) (args : RequestVoteArgs) :
    RaftPeer × RequestVoteReply :=
  if args.term < p.current_term then
    (p, { term := p.current_term, vote_granted := false })
  else
    requestVoteCore (adoptTermIfNewer p args.term) args

/-- Arguments of the `AppendLogs` RPC (spec §6). -/
structure AppendLogsArgs where
  term : Nat
  leader_id : Nat
  prev_log_index : Nat
  prev_log_term : Nat
  entries : List LogEntry
  leader_commit : Nat
  deriving Repr, DecidableEq

/-- Reply of the `AppendLogs` RPC (spec §6). -/
structure AppendLogsReply where
  term : Nat
  success : Bool
  deriving Repr, DecidableEq

/-- Modelled from the spec (§4.5 step 5): walk `entries` aligned to
position `pos` of the local log; at the first position where the local
term differs (or the local log ends) truncate there and append the
remaining entries; entries whose terms match are kept unchanged. -/
def mergeEntries (log : List LogEntry) (pos : Nat) (entries : List LogEntry) :
    List LogEntry :=
  match entries with
  | [] => log
  | e :: rest =>
    match log[pos]? with
    | some l =>
      if l.term = e.term then mergeEntries log (pos + 1) rest
      else log.take pos ++ (e :: rest)
    | none => log.take pos ++ (e :: rest)

/-- Length of the prefix of `entries` that already matches the local log
(by term) starting at position `pos`. -/
def matchCount (log : List LogEntry) (pos : Nat) (entries : List LogEntry) :
    Nat :=
  match entries with
  | [] => 0
  | e :: rest =>
    match log[pos]? with
    | some l =>
      if l.term = e.term then matchCount log (pos + 1) rest + 1
      else 0
    | none => 0

/-- Modelled from the spec (§4.5 step 2): on `args.term > current_term`
apply rule 5; on an equal term a Candidate steps down to Follower. -/
def appendStepDown (p : RaftPeer) (t : Nat) : RaftPeer :=
  if p.current_term < t then adoptTermIfNewer p t
  else if p.role = Role.Candidate then { p with role := Role.Follower }
  else p

/-- Modelled from the spec (§4.5 steps 4-7): the part of the `AppendLogs`
handler that runs after the term check and step-down: consistency check,
merge, commit-index update, success reply. -/
def appendLogsCore (p1 : RaftPeer) (args : AppendLogsArgs) :
    RaftPeer × AppendLogsReply :=
  if p1.log.length ≤ args.prev_log_index ∨
      logTermAt p1.log args.prev_log_index ≠ args.prev_log_term then
    (p1, { term := p1.current_term, success := false })
  else
    let newLog := mergeEntries p1.log (args.prev_log_index + 1) args.entries
    let newCommit :=
      if p1.commit_index < args.leader_commit then
        min args.leader_commit (newLog.length - 1)
      else p1.commit_index
    ({ p1 with log := newLog, commit_index := newCommit },
      { term := p1.current_term, success := true })

/-- Modelled from the spec (§4.5): `RaftPeer::handle_append_logs` of the
missing `raft_peer.rs`.  Stale-term rejection, step-down, then the core. -/
def handle_append_logs (p : RaftPeer) (args : AppendLogsArgs) :
    RaftPeer × AppendLogsReply :=
  if args.term < p.current_term then
    (p, { term := p.current_term, success := false })
  else
    appendLogsCore (appendStepDown p args.term) args

/-- Modelled from the spec (§4.4): a strict majority of peers — counting
the leader itself as having `last_log_index` — have `match_index ≥ n`. -/
def majorityHave (p : RaftPeer) (n : Nat) : Bool :=
  decide (p.peersCount <
    2 * ((List.range p.peersCount).filter (fun i =>
      if i = p.me then decide (n ≤ lastLogIndex p)
      else decide (n ≤ p.match_index.getD i 0))).length)

/-- Modelled from the spec (§4.4): `n` is a legal new commit index:
`n > commit_index`, `log[n].term == current_term`, and a strict majority
have `match_index ≥ n`. -/
def commitCandidate (p : RaftPeer) (n : Nat) : Bool :=
  decide (p.commit_index < n) &&
    decide (logTermAt p.log n = p.current_term) && majorityHave p n

/-- Modelled from the spec (§4.4): the largest legal new commit index, or
the current `commit_index` when no index qualifies. -/
def newCommitIndex (p : RaftPeer) : Nat :=
  ((List.range (lastLogIndex p + 1)).filter
    (fun n => commitCandidate p n)).foldl max p.commit_index

/-- Modelled from the spec (§4.4): commit advancement run after any
`match_index` update. -/
def updateCommitIndex (p : RaftPeer) : RaftPeer :=
  { p with commit_index := newCommitIndex p }

/-- Modelled from the spec (§4.1, §4.3): the payload of the
`Action::AppendLogsResult` variant (`raft_server.rs` line 95 matches a
single payload; its fields live in the missing `defs.rs`).  It carries the
follower's reply together with the send-time context
`(follower_idx, sent_prev_index, sent_len, sent_term)`. -/
structure AppendLogsResultPayload where
  reply : AppendLogsReply
  follower_idx : Nat
  sent_prev_index : Nat
  sent_len : Nat
  sent_term : Nat
  deriving Repr, DecidableEq

/-- Modelled from the spec (§4.3): the result payload the leader builds
when the reply of an outbound `AppendLogs` to follower `fIdx` arrives:
`prev_index = next_index[fIdx] - 1`, `entries = log[next_index[fIdx] ..
last_log_index+1]`, `sent_term = current_term` — all captured at send
time. -/
def mkAppendLogsResult (p : RaftPeer) (fIdx : Nat) (reply : AppendLogsReply) :
    AppendLogsResultPayload :=
  let prev := p.next_index.getD fIdx 1 - 1
  { reply := reply,
    follower_idx := fIdx,
    sent_prev_index := prev,
    sent_len := lastLogIndex p - prev,
    sent_term := p.current_term }

/-- Modelled from the spec (§4.3): `RaftPeer::handle_append_logs_reply` of
the missing `raft_peer.rs`.  Higher reply term triggers rule 5 and drops
the progress update; a stale send (`sent_term ≠ current_term` or no longer
Leader) is discarded; a success advances `match_index`/`next_index` and
commit; a failure backs `next_index` off (floor 1). -/
def handle_append_logs_reply (p : RaftPeer) (r : AppendLogsResultPayload) :
    RaftPeer :=
  if p.current_term < r.reply.term then adoptTermIfNewer p r.reply.term
  else if r.sent_term ≠ p.current_term ∨ p.role ≠ Role.Leader then p
  else if r.reply.success then
    let m := max (p.match_index.getD r.follower_idx 0)
      (r.sent_prev_index + r.sent_len)
    updateCommitIndex
      { p with match_index := p.match_index.set r.follower_idx m,
               next_index := p.next_index.set r.follower_idx (m + 1) }
  else
    let backedOff := max 1 (p.next_index.getD r.follower_idx 1 - 1)
    { p with next_index := p.next_index.set r.follower_idx backedOff }

/-- Modelled from the spec (§4.2 step 4): processing of one `RequestVote`
reply gathered during vote collection (inside `kick_off_election` of the
missing `raft_peer.rs`): a reply carrying a higher term triggers rule 5
and aborts the election — the peer steps down to Follower and the vote,
even if granted, is not counted; otherwise a granted vote adds to the
tally.  Returns the peer state and the updated vote count. -/
def handleRequestVoteReply (p : RaftPeer) (votes : Nat)
    (reply : RequestVoteReply) : RaftPeer × Nat :=
  if p.current_term < reply.term then (adoptTermIfNewer p reply.term, votes)
  else if reply.vote_granted then (p, votes + 1)
  else (p, votes)

/-- Modelled from the spec (§4.2 trigger and step 1;
`RaftPeer::convert_to_candidate` of the missing `raft_peer.rs`, invoked by
the `KickOffElection` arm of `action_handler`, `raft_server.rs` lines
69-79): Leaders ignore the trigger; otherwise the peer becomes Candidate,
increments `current_term` and votes for itself. -/
def handleKickOffElection (p : RaftPeer) : RaftPeer :=
  if p.role = Role.Leader then p
  else
    { p with role := Role.Candidate,
             current_term := p.current_term + 1,
             voted_for := some p.me }

/-- From `raft_server.rs` lines 111-131 (`election_timer`): at each wake,
after the randomized delay, a `KickOffElection` action is sent iff the
peer is not dead on the wake check path, is not leader, the timeout was
observed (no `last_receive_time` update since the wake started) and the
action channel is open.  Returns `none` when the timer exits (dead),
otherwise whether it sends. -/
def electionTimerWake (dead isLeader timeoutObserved senderClosed : Bool) :
    Option Bool :=
  if dead then none
  else some (!isLeader && timeoutObserved && !senderClosed)

/-- From `raft_server.rs` lines 134-149 (`apply_timer`): at each tick the
timer exits when dead (`none`), otherwise sends `Apply` iff the channel is
open. -/
def applyTimerWake (dead senderClosed : Bool) : Option Bool :=
  if dead then none
  else some (!senderClosed)

/-- From `raft_server.rs` lines 151-163 (`append_timer`): at each tick the
timer sends `StartAppendLogs` iff `is_leader` and the channel is open; the
loop body contains no exit path, so the wake never returns `none`. -/
def appendTimerWake (_dead isLeader senderClosed : Bool) : Option Bool :=
  some (isLeader && !senderClosed)

/-- From `raft_server.rs` lines 40-43: each event-loop iteration first
checks `dead` and returns when it is set. -/
def eventLoopIterExits (dead : Bool) : Bool := dead

/-- Server-level state visible to the event loop: the peer plus the
mutex-guarded `last_receive_time` (`raft_server.rs` lines 13-18), the
clock abstracted to a `Nat`. -/
structure ServerState where
  raft : RaftPeer
  last_receive_time : Nat
  deriving Repr, DecidableEq

/-- From `raft_server.rs` lines 48-56: the `RequestVote` arm of
`action_handler` runs the peer handler and then unconditionally stores
`Instant::now()` (here `now`) into `last_receive_time`. -/
def serverRequestVoteStep (s : ServerState) (now : Nat)
    (args : RequestVoteArgs) : ServerState × RequestVoteReply :=
  let pr := handle_request_vote s.raft args
  ({ raft := pr.1, last_receive_time := now }, pr.2)

/-- From `raft_server.rs` lines 57-68: the `AppendLogs` arm of
`action_handler` runs the peer handler and then unconditionally stores
`Instant::now()` (here `now`) into `last_receive_time`. -/
def serverAppendLogsStep (s : ServerState) (now : Nat)
    (args : AppendLogsArgs) : ServerState × AppendLogsReply :=
  let pr := handle_append_logs s.raft args
  ({ raft := pr.1, last_receive_time := now }, pr.2)

/-- The errors of `errors.rs` that `node.rs` mentions (`Error::Encode`,
`Error::NotLeader`); the encode payload is dropped. -/
inductive NodeError where
  | Encode
  | NotLeader
  deriving Repr, DecidableEq

/-- From `node.rs` lines 73-97 (`Node::start`).  Inputs model the three
external outcomes the code branches on: `encodeResult` (`none` = encode
failure), `channelClosed` (`msg_sender.is_closed()`), and `replyOutcome`
(`none` = the one-shot reply slot was dropped, `some res` = the Server
answered `res`).  Returns the caller's result paired with whether a
`Start` action was enqueued. -/
def nodeStart (encodeResult : Option (List Nat)) (channelClosed : Bool)
    (replyOutcome : Option (Except NodeError (Nat × Nat))) :
    Except NodeError (Nat × Nat) × Bool :=
  match encodeResult with
  | none => (Except.error NodeError.Encode, false)
  | some _ =>
    if channelClosed then (Except.error NodeError.NotLeader, false)
    else
      match replyOutcome with
      | some res => (res, true)
      | none => (Except.error NodeError.NotLeader, true)

/-- The shared cells of `node.rs` lines 29-35: the three atomics read by
the `Node` handle plus whether the action channel has been closed. -/
structure NodeShared where
  current_term : Nat
  is_leader : Bool
  dead : Bool
  channelClosed : Bool
  deriving Repr, DecidableEq

/-- From `node.rs` lines 125-127 (`Node::kill`): store `true` into the
`dead` atomic and nothing else. -/
def nodeKill (s : NodeShared) : NodeShared := { s with dead := true }

/-- From `node.rs` lines 100-102 (`Node::term`): an atomic read. -/
def nodeTerm (s : NodeShared) : Nat := s.current_term

/-- From `node.rs` lines 105-107 (`Node::is_leader`): an atomic read. -/
def nodeIsLeader (s : NodeShared) : Bool := s.is_leader

/-- A follower peer used to instantiate universally quantified theorems. -/
def samplePeer : RaftPeer :=
  { me := 0, peersCount := 3, current_term := 5, voted_for := none,
    log := [{ term := 0, index := 0, command := [] },
            { term := 4, index := 1, command := [10] },
            { term := 5, index := 2, command := [11] }],
    commit_index := 0, last_applied := 0, next_index := [3, 3, 3],
    match_index := [0, 0, 0], role := Role.Follower }

/-- A leader peer used to instantiate universally quantified theorems. -/
def sampleLeader : RaftPeer :=
  { samplePeer with role := Role.Leader }

end Raft

namespace Raft

section FrameLemmas

theorem adoptTermIfNewer_log (p : RaftPeer) (t : Nat) :
    (adoptTermIfNewer p t).log = p.log := by
  unfold adoptTermIfNewer
  split <;> rfl

theorem adoptTermIfNewer_progress (p : RaftPeer) (t : Nat) :
    (adoptTermIfNewer p t).match_index = p.match_index ∧
    (adoptTermIfNewer p t).next_index = p.next_index ∧
    (adoptTermIfNewer p t).commit_index = p.commit_index := by
  unfold adoptTermIfNewer
  split <;> exact ⟨rfl, rfl, rfl⟩

theorem appendStepDown_log (p : RaftPeer) (t : Nat) :
    (appendStepDown p t).log = p.log := by
  unfold appendStepDown
  split
  · exact adoptTermIfNewer_log p t
  · split <;> rfl

theorem appendStepDown_commit (p : RaftPeer) (t : Nat) :
    (appendStepDown p t).commit_index = p.commit_index := by
  unfold appendStepDown
  split
  · exact (adoptTermIfNewer_progress p t).2.2
  · split <;> rfl

end FrameLemmas

/-- C10: `Node::kill` only stores `true` into the `dead` atomic; the
channel-closed flag and the `current_term` / `is_leader` atomics are
untouched, so `term()` and `is_leader()` keep returning the last values
the Server wrote. -/
theorem C10_kill_only_sets_dead (s : NodeShared) :
    (nodeKill s).dead = true ∧
    (nodeKill s).channelClosed = s.channelClosed ∧
    (nodeKill s).current_term = s.current_term ∧
    (nodeKill s).is_leader = s.is_leader ∧
    nodeTerm (nodeKill s) = nodeTerm s ∧
    nodeIsLeader (nodeKill s) = nodeIsLeader s := by
  refine ⟨rfl, rfl, rfl, rfl, rfl, rfl⟩

/-- C9: `Node::start` returns the `Encode` error without enqueuing when
encoding fails; returns `NotLeader` without enqueuing when the action
channel is closed; enqueues `Start` and returns `NotLeader` when the reply
slot is dropped; and enqueues and returns the Server's answer otherwise —
every case returns a value, so the call neither panics nor hangs. -/
theorem C9_node_start_contract (c : Bool)
    (r : Option (Except NodeError (Nat × Nat))) (x : List Nat)
    (v : Except NodeError (Nat × Nat)) :
    nodeStart none c r = (Except.error NodeError.Encode, false) ∧
    nodeStart (some x) true r = (Except.error NodeError.NotLeader, false) ∧
    nodeStart (some x) false none = (Except.error NodeError.NotLeader, true) ∧
    nodeStart (some x) false (some v) = (v, true) := by
  refine ⟨rfl, rfl, rfl, rfl⟩

/-- C8 counterexample: with `dead` set, a wake of the append timer does
not exit — with `is_leader` still set and the channel open it even keeps
sending `StartAppendLogs` — refuting the claim that the `dead` flag is
checked at every wake of each of the three timers and that all three
exit. -/
theorem C8_counterexample :
    appendTimerWake true true false ≠ none ∧
    appendTimerWake true true false = some true := by
  refine ⟨by decide, rfl⟩

/-- C8 (amended): `dead` is checked at every event-loop iteration and at
every wake of the election and apply timers, which then exit; the append
timer's wake never consults `dead` and never exits, sending whenever
`is_leader` is set and the channel is open. -/
theorem C8_dead_checks (dead isLeader timeoutObserved closed : Bool) :
    eventLoopIterExits dead = dead ∧
    electionTimerWake true isLeader timeoutObserved closed = none ∧
    applyTimerWake true closed = none ∧
    appendTimerWake dead isLeader closed = some (isLeader && !closed) := by
  refine ⟨rfl, rfl, rfl, rfl⟩

/-- The server state of the C7 counterexample: term 5, last contact at
clock 0. -/
def c7State : ServerState :=
  { raft := samplePeer, last_receive_time := 0 }

/-- The stale vote request of the C7 counterexample: term 1 < 5. -/
def c7StaleVote : RequestVoteArgs :=
  { term := 1, candidate_id := 1, last_log_index := 9, last_log_term := 9 }

/-- C7 counterexample: an inbound `RequestVote` whose term is below
`current_term` is rejected (`granted=false`), yet the `action_handler`
still overwrites `last_receive_time` with the current instant — refuting
the claim that a stale-rejected RPC leaves `last_receive_time`
unchanged. -/
theorem C7_counterexample :
    c7StaleVote.term < c7State.raft.current_term ∧
    (serverRequestVoteStep c7State 7 c7StaleVote).2.vote_granted = false ∧
    (serverRequestVoteStep c7State 7 c7StaleVote).1.last_receive_time ≠
      c7State.last_receive_time := by
  refine ⟨by decide, by decide, by decide⟩

/-- C7 (amended): the `action_handler` stores the current instant into
`last_receive_time` for every inbound `RequestVote` and every inbound
`AppendLogs` action, unconditionally — whether or not the request came
from a legitimate current-term leader or candidate. -/
theorem C7_last_receive_time_unconditional (s : ServerState) (now : Nat)
    (a : RequestVoteArgs) (b : AppendLogsArgs) :
    (serverRequestVoteStep s now a).1.last_receive_time = now ∧
    (serverAppendLogsStep s now b).1.last_receive_time = now := by
  refine ⟨rfl, rfl⟩

/-- C6: a `KickOffElection` processed while the peer is Leader leaves the
state unchanged — no Candidate transition, no term increment, no
`voted_for` change — and the election timer never emits the action while
`is_leader` is set. -/
theorem C6_leader_ignores_kick_off (p : RaftPeer)
    (timeoutObserved closed : Bool) (h : p.role = Role.Leader) :
    handleKickOffElection p = p ∧
    electionTimerWake false true timeoutObserved closed = some false := by
  constructor
  · unfold handleKickOffElection
    rw [if_pos h]
  · rfl

/-- C6 witness: the theorem applied to a concrete leader. -/
theorem C6_witness :
    handleKickOffElection sampleLeader = sampleLeader ∧
    electionTimerWake false true true false = some false :=
  C6_leader_ignores_kick_off sampleLeader true false rfl

theorem lastLogIndex_adopt (p : RaftPeer) (t : Nat) :
    lastLogIndex (adoptTermIfNewer p t) = lastLogIndex p := by
  unfold lastLogIndex
  rw [adoptTermIfNewer_log]

theorem lastLogTerm_adopt (p : RaftPeer) (t : Nat) :
    lastLogTerm (adoptTermIfNewer p t) = lastLogTerm p := by
  unfold lastLogTerm
  rw [adoptTermIfNewer_log, lastLogIndex_adopt]

theorem requestVoteCore_granted (p : RaftPeer) (args : RequestVoteArgs) :
    (requestVoteCore p args).2.vote_granted = voteGrantCond p args := by
  unfold requestVoteCore
  by_cases h : voteGrantCond p args = true
  · rw [if_pos h, h]
  · rw [if_neg h, Bool.eq_false_iff.mpr h]

theorem voteGrantCond_iff (p : RaftPeer) (args : RequestVoteArgs) :
    voteGrantCond p args = true ↔
      ((p.voted_for = none ∨ p.voted_for = some args.candidate_id) ∧
       (lastLogTerm p < args.last_log_term ∨
        (args.last_log_term = lastLogTerm p ∧
         lastLogIndex p ≤ args.last_log_index))) := by
  unfold voteGrantCond upToDate
  cases hv : p.voted_for with
  | none => simp
  | some c => simp [hv]

/-- C2: an inbound `RequestVote` with `args.term < current_term` is
answered `{term = current_term, granted = false}` with no state change;
otherwise, after any term adoption, the vote is granted iff `voted_for`
is `None` or the candidate, and the candidate's log is at least as
up-to-date (`args.last_log_term > my_last_log_term`, or equal terms and
`args.last_log_index ≥ my_last_log_index`). -/
theorem C2_request_vote_contract (p : RaftPeer) (args : RequestVoteArgs) :
    (args.term < p.current_term →
      handle_request_vote p args =
        (p, { term := p.current_term, vote_granted := false })) ∧
    (p.current_term ≤ args.term →
      ((handle_request_vote p args).2.vote_granted = true ↔
        (((adoptTermIfNewer p args.term).voted_for = none ∨
          (adoptTermIfNewer p args.term).voted_for =
            some args.candidate_id) ∧
         (lastLogTerm p < args.last_log_term ∨
          (args.last_log_term = lastLogTerm p ∧
           lastLogIndex p ≤ args.last_log_index))))) := by
  constructor
  · intro h
    unfold handle_request_vote
    rw [if_pos h]
  · intro h
    have hnl : ¬ args.term < p.current_term := Nat.not_lt.mpr h
    unfold handle_request_vote
    rw [if_neg hnl, requestVoteCore_granted,
      voteGrantCond_iff (adoptTermIfNewer p args.term) args,
      lastLogTerm_adopt, lastLogIndex_adopt]

/-- A stale vote request against `samplePeer` (term 3 < 5). -/
def c2Stale : RequestVoteArgs :=
  { term := 3, candidate_id := 1, last_log_index := 0, last_log_term := 0 }

/-- A current vote request against `samplePeer` with an up-to-date log. -/
def c2Live : RequestVoteArgs :=
  { term := 6, candidate_id := 1, last_log_index := 5, last_log_term := 9 }

/-- C2 witness: the theorem applied to one stale and one grantable
concrete request. -/
theorem C2_witness :
    handle_request_vote samplePeer c2Stale =
      (samplePeer, { term := 5, vote_granted := false }) ∧
    (handle_request_vote samplePeer c2Live).2.vote_granted = true := by
  constructor
  · exact (C2_request_vote_contract samplePeer c2Stale).1 (by decide)
  · exact ((C2_request_vote_contract samplePeer c2Live).2 (by decide)).mpr
      (by decide)

/-- C4: on processing any message carrying a term `t` strictly greater
than `current_term` — an inbound `RequestVote`, an inbound `AppendLogs`,
an `AppendLogs` reply, or a `RequestVote` reply gathered during vote
collection — the peer first adopts `t`, clears `voted_for` and becomes
Follower, and only then performs the remaining processing of the message
(for a higher-term append reply the progress update is dropped entirely,
and for a higher-term vote reply the election is aborted: the vote is not
counted even when granted). -/
theorem C4_term_adoption (p : RaftPeer) (t : Nat) (h : p.current_term < t) :
    (adoptTermIfNewer p t).current_term = t ∧
    (adoptTermIfNewer p t).voted_for = none ∧
    (adoptTermIfNewer p t).role = Role.Follower ∧
    (∀ args : RequestVoteArgs, args.term = t →
      handle_request_vote p args =
        requestVoteCore (adoptTermIfNewer p t) args) ∧
    (∀ args : AppendLogsArgs, args.term = t →
      handle_append_logs p args =
        appendLogsCore (adoptTermIfNewer p t) args) ∧
    (∀ r : AppendLogsResultPayload, r.reply.term = t →
      handle_append_logs_reply p r = adoptTermIfNewer p t) ∧
    (∀ (votes : Nat) (reply : RequestVoteReply), reply.term = t →
      handleRequestVoteReply p votes reply = (adoptTermIfNewer p t, votes)) := by
  refine ⟨?_, ?_, ?_, ?_, ?_, ?_, ?_⟩
  · unfold adoptTermIfNewer
    rw [if_pos h]
  · unfold adoptTermIfNewer
    rw [if_pos h]
  · unfold adoptTermIfNewer
    rw [if_pos h]
  · intro args ha
    have hnl : ¬ args.term < p.current_term := by omega
    unfold handle_request_vote
    rw [if_neg hnl, ha]
  · intro args ha
    have hnl : ¬ args.term < p.current_term := by omega
    unfold handle_append_logs
    rw [if_neg hnl, ha]
    unfold appendStepDown
    rw [if_pos h]
  · intro r hr
    unfold handle_append_logs_reply
    rw [hr, if_pos h]
  · intro votes reply hr
    unfold handleRequestVoteReply
    rw [hr, if_pos h]

/-- C4 witness: the adoption facts at a concrete peer and term, and a
granted higher-term vote reply that is not counted. -/
theorem C4_witness :
    (adoptTermIfNewer samplePeer 9).current_term = 9 ∧
    (adoptTermIfNewer samplePeer 9).voted_for = none ∧
    (adoptTermIfNewer samplePeer 9).role = Role.Follower ∧
    handleRequestVoteReply samplePeer 1 { term := 9, vote_granted := true } =
      (adoptTermIfNewer samplePeer 9, 1) := by
  have h := C4_term_adoption samplePeer 9 (by decide)
  exact ⟨h.1, h.2.1, h.2.2.1,
    h.2.2.2.2.2.2 1 { term := 9, vote_granted := true } rfl⟩

/-- C5: the result of an outbound append carries the send-time context —
`sent_term` is the leader's `current_term`, `sent_prev_index` is
`next_index[follower] - 1`, `sent_len` the number of entries sent — and
the reply handler leaves `match_index`, `next_index` and `commit_index`
unchanged whenever `sent_term ≠ current_term` or the peer is no longer
Leader. -/
theorem C5_append_result_context (p : RaftPeer) (fIdx : Nat)
    (reply : AppendLogsReply) (r : AppendLogsResultPayload)
    (h : r.sent_term ≠ p.current_term ∨ p.role ≠ Role.Leader) :
    (mkAppendLogsResult p fIdx reply).sent_term = p.current_term ∧
    (mkAppendLogsResult p fIdx reply).sent_prev_index =
      p.next_index.getD fIdx 1 - 1 ∧
    (mkAppendLogsResult p fIdx reply).sent_len =
      lastLogIndex p - (p.next_index.getD fIdx 1 - 1) ∧
    (mkAppendLogsResult p fIdx reply).follower_idx = fIdx ∧
    (mkAppendLogsResult p fIdx reply).reply = reply ∧
    (handle_append_logs_reply p r).match_index = p.match_index ∧
    (handle_append_logs_reply p r).next_index = p.next_index ∧
    (handle_append_logs_reply p r).commit_index = p.commit_index := by
  refine ⟨rfl, rfl, rfl, rfl, rfl, ?_, ?_, ?_⟩ <;>
    · unfold handle_append_logs_reply
      by_cases hb : p.current_term < r.reply.term
      · rw [if_pos hb]
        unfold adoptTermIfNewer
        rw [if_pos hb]
      · rw [if_neg hb, if_pos h]

/-- A stale append-reply payload: sent at term 4 while `sampleLeader` is
now at term 5. -/
def c5Stale : AppendLogsResultPayload :=
  { reply := { term := 5, success := true }, follower_idx := 1,
    sent_prev_index := 2, sent_len := 1, sent_term := 4 }

/-- C5 witness: the theorem applied to a concrete leader and a concrete
stale reply. -/
theorem C5_witness :
    (mkAppendLogsResult sampleLeader 1
      { term := 5, success := true }).sent_term =
      sampleLeader.current_term ∧
    (handle_append_logs_reply sampleLeader c5Stale).match_index =
      sampleLeader.match_index ∧
    (handle_append_logs_reply sampleLeader c5Stale).commit_index =
      sampleLeader.commit_index := by
  have h := C5_append_result_context sampleLeader 1
    { term := 5, success := true } c5Stale (by decide)
  exact ⟨h.1, h.2.2.2.2.2.1, h.2.2.2.2.2.2.2⟩

theorem matchCount_le (log : List LogEntry) (pos : Nat)
    (entries : List LogEntry) :
    matchCount log pos entries ≤ entries.length := by
  induction entries generalizing pos with
  | nil => simp [matchCount]
  | cons e rest ih =>
    unfold matchCount
    cases hp : log[pos]? with
    | none => simp
    | some l =>
      by_cases ht : l.term = e.term
      · simp only [if_pos ht, List.length_cons]
        exact Nat.succ_le_succ (ih (pos + 1))
      · simp [if_neg ht]

theorem matchCount_add_le (log : List LogEntry) (pos : Nat)
    (entries : List LogEntry) (h : pos ≤ log.length) :
    pos + matchCount log pos entries ≤ log.length := by
  induction entries generalizing pos with
  | nil => simpa [matchCount] using h
  | cons e rest ih =>
    unfold matchCount
    cases hp : log[pos]? with
    | none => simpa using h
    | some l =>
      dsimp only
      by_cases ht : l.term = e.term
      · have hlt : pos < log.length := by
          by_contra hge
          rw [List.getElem?_eq_none (Nat.le_of_not_lt hge)] at hp
          exact Option.noConfusion hp
        have := ih (pos + 1) hlt
        rw [if_pos ht]
        omega
      · simpa [if_neg ht] using h

theorem mergeEntries_eq (log : List LogEntry) (pos : Nat)
    (entries : List LogEntry) :
    mergeEntries log pos entries =
      if matchCount log pos entries = entries.length then log
      else log.take (pos + matchCount log pos entries) ++
        entries.drop (matchCount log pos entries) := by
  induction entries generalizing pos with
  | nil => simp [mergeEntries, matchCount]
  | cons e rest ih =>
    unfold mergeEntries matchCount
    cases hp : log[pos]? with
    | none => simp
    | some l =>
      dsimp only
      by_cases ht : l.term = e.term
      · rw [if_pos ht, if_pos ht, ih (pos + 1)]
        by_cases hmc : matchCount log (pos + 1) rest = rest.length
        · rw [if_pos hmc, if_pos (by simp [hmc])]
        · rw [if_neg hmc, if_neg (by simpa using hmc)]
          have harith : pos + 1 + matchCount log (pos + 1) rest =
              pos + (matchCount log (pos + 1) rest + 1) := by omega
          rw [harith]
          rfl
      · rw [if_neg ht, if_neg ht]
        rw [if_neg (by simp)]
        simp

theorem mergeEntries_take (log : List LogEntry) (pos : Nat)
    (entries : List LogEntry) (h : pos ≤ log.length) :
    (mergeEntries log pos entries).take
        (pos + matchCount log pos entries) =
      log.take (pos + matchCount log pos entries) := by
  rw [mergeEntries_eq]
  by_cases hmc : matchCount log pos entries = entries.length
  · rw [if_pos hmc]
  · rw [if_neg hmc]
    have hlen : (log.take (pos + matchCount log pos entries)).length =
        pos + matchCount log pos entries := by
      rw [List.length_take]
      exact Nat.min_eq_left (matchCount_add_le log pos entries h)
    calc (log.take (pos + matchCount log pos entries) ++
            entries.drop (matchCount log pos entries)).take
          (pos + matchCount log pos entries)
        = (log.take (pos + matchCount log pos entries) ++
            entries.drop (matchCount log pos entries)).take
          (log.take (pos + matchCount log pos entries)).length := by
            rw [hlen]
      _ = log.take (pos + matchCount log pos entries) := List.take_left _ _

theorem mergeEntries_getElem (log : List LogEntry) (pos : Nat)
    (entries : List LogEntry) (h : pos ≤ log.length) (i : Nat)
    (hi : i < pos + matchCount log pos entries) :
    (mergeEntries log pos entries)[i]? = log[i]? := by
  have ht := mergeEntries_take log pos entries h
  have h1 : ((mergeEntries log pos entries).take
      (pos + matchCount log pos entries))[i]? =
      (mergeEntries log pos entries)[i]? := by
    rw [List.getElem?_take, if_pos hi]
  have h2 : ((log.take (pos + matchCount log pos entries)))[i]? =
      log[i]? := by
    rw [List.getElem?_take, if_pos hi]
  rw [← h1, ht, h2]

theorem handle_append_logs_accept (p : RaftPeer) (args : AppendLogsArgs)
    (h1 : ¬ args.term < p.current_term)
    (h2 : args.prev_log_index < p.log.length)
    (h3 : logTermAt p.log args.prev_log_index = args.prev_log_term) :
    (handle_append_logs p args).2.success = true ∧
    (handle_append_logs p args).1.log =
      mergeEntries p.log (args.prev_log_index + 1) args.entries := by
  have hlog := appendStepDown_log p args.term
  have hcond : ¬ ((appendStepDown p args.term).log.length ≤
      args.prev_log_index ∨
      logTermAt (appendStepDown p args.term).log args.prev_log_index ≠
        args.prev_log_term) := by
    rw [hlog]
    push_neg
    exact ⟨h2, h3⟩
  unfold handle_append_logs appendLogsCore
  rw [if_neg h1, if_neg hcond, hlog]
  exact ⟨rfl, rfl⟩

/-- C3: when a follower accepts an `AppendLogs` (term not stale and the
consistency check passed), the new log is the merge of `args.entries`
aligned to `args.prev_log_index + 1`: if every incoming entry matches the
local term the log is unchanged; otherwise the log is truncated exactly
at the first differing position and the remaining entries are appended;
every entry strictly below the truncation point — in particular every
entry at or below a `commit_index` protected by the matching prefix — is
unchanged. -/
theorem C3_append_merge (p : RaftPeer) (args : AppendLogsArgs)
    (h1 : ¬ args.term < p.current_term)
    (h2 : args.prev_log_index < p.log.length)
    (h3 : logTermAt p.log args.prev_log_index = args.prev_log_term) :
    (handle_append_logs p args).2.success = true ∧
    (handle_append_logs p args).1.log =
      mergeEntries p.log (args.prev_log_index + 1) args.entries ∧
    (matchCount p.log (args.prev_log_index + 1) args.entries =
        args.entries.length →
      (handle_append_logs p args).1.log = p.log) ∧
    (matchCount p.log (args.prev_log_index + 1) args.entries <
        args.entries.length →
      (handle_append_logs p args).1.log =
        p.log.take (args.prev_log_index + 1 +
          matchCount p.log (args.prev_log_index + 1) args.entries) ++
        args.entries.drop
          (matchCount p.log (args.prev_log_index + 1) args.entries)) ∧
    (∀ i, i < args.prev_log_index + 1 +
        matchCount p.log (args.prev_log_index + 1) args.entries →
      (handle_append_logs p args).1.log[i]? = p.log[i]?) ∧
    (p.commit_index < args.prev_log_index + 1 +
        matchCount p.log (args.prev_log_index + 1) args.entries →
      ∀ i, i ≤ p.commit_index →
        (handle_append_logs p args).1.log[i]? = p.log[i]?) := by
  obtain ⟨hs, hl⟩ := handle_append_logs_accept p args h1 h2 h3
  have hpos : args.prev_log_index + 1 ≤ p.log.length := h2
  refine ⟨hs, hl, ?_, ?_, ?_, ?_⟩
  · intro hmc
    rw [hl, mergeEntries_eq, if_pos hmc]
  · intro hmc
    rw [hl, mergeEntries_eq, if_neg (Nat.ne_of_lt hmc)]
  · intro i hi
    rw [hl]
    exact mergeEntries_getElem p.log (args.prev_log_index + 1)
      args.entries hpos i hi
  · intro hc i hi
    rw [hl]
    exact mergeEntries_getElem p.log (args.prev_log_index + 1)
      args.entries hpos i (by omega)

/-- A concrete append accepted by `samplePeer`: `prev = 1` matches term 4;
the first entry matches the local term at index 2, the second is new. -/
def c3Args : AppendLogsArgs :=
  { term := 5, leader_id := 1, prev_log_index := 1, prev_log_term := 4,
    entries := [{ term := 5, index := 2, command := [20] },
                { term := 5, index := 3, command := [21] }],
    leader_commit := 0 }

/-- C3 witness: the theorem applied to a concrete accepted append: the
reply is a success, the matching entry at index 2 is kept, and the local
prefix up to index 2 is unchanged. -/
theorem C3_witness :
    (handle_append_logs samplePeer c3Args).2.success = true ∧
    (handle_append_logs samplePeer c3Args).1.log =
      mergeEntries samplePeer.log 2 c3Args.entries ∧
    (handle_append_logs samplePeer c3Args).1.log[2]? =
      samplePeer.log[2]? := by
  have h := C3_append_merge samplePeer c3Args (by decide) (by decide)
    (by decide)
  exact ⟨h.1, h.2.1, h.2.2.2.2.1 2 (by decide)⟩

theorem foldl_max_init_le (l : List Nat) (b : Nat) : b ≤ l.foldl max b := by
  induction l generalizing b with
  | nil => exact Nat.le_refl b
  | cons a l ih =>
    exact Nat.le_trans (Nat.le_max_left b a) (ih (max b a))

theorem foldl_max_mem_le (l : List Nat) (b x : Nat) (hx : x ∈ l) :
    x ≤ l.foldl max b := by
  induction l generalizing b with
  | nil => cases hx
  | cons a l ih =>
    rcases List.mem_cons.mp hx with h | h
    · subst h
      exact Nat.le_trans (Nat.le_max_right b x)
        (foldl_max_init_le l (max b x))
    · exact ih (max b a) h

theorem foldl_max_eq_or_mem (l : List Nat) (b : Nat) :
    l.foldl max b = b ∨ l.foldl max b ∈ l := by
  induction l generalizing b with
  | nil => exact Or.inl rfl
  | cons a l ih =>
    rcases ih (max b a) with h | h
    · rcases max_choice b a with hm | hm
      · exact Or.inl (by rw [List.foldl_cons, h, hm])
      · refine Or.inr ?_
        rw [List.foldl_cons, h, hm]
        exact List.mem_cons_self a l
    · exact Or.inr (List.mem_cons_of_mem a h)

theorem newCommitIndex_candidate (p : RaftPeer)
    (hadv : p.commit_index < newCommitIndex p) :
    commitCandidate p (newCommitIndex p) = true := by
  rcases foldl_max_eq_or_mem
    ((List.range (lastLogIndex p + 1)).filter
      (fun n => commitCandidate p n)) p.commit_index with h | h
  · unfold newCommitIndex at hadv
    omega
  · exact (List.mem_filter.mp h).2

/-- C1: commit advancement never regresses `commit_index`; when it
advances, the new index has the leader's `current_term` and is acknowledged
by a strict majority (counting the leader itself at `last_log_index`);
it is the largest such index; and an index whose entry's term differs
from `current_term` is never chosen as the new `commit_index` by majority
count alone. -/
theorem C1_commit_advancement (p : RaftPeer) :
    p.commit_index ≤ (updateCommitIndex p).commit_index ∧
    (p.commit_index < (updateCommitIndex p).commit_index →
      logTermAt p.log ((updateCommitIndex p).commit_index) =
        p.current_term ∧
      majorityHave p ((updateCommitIndex p).commit_index) = true) ∧
    (∀ n, n ≤ lastLogIndex p → p.commit_index < n →
      logTermAt p.log n = p.current_term → majorityHave p n = true →
      n ≤ (updateCommitIndex p).commit_index) ∧
    (∀ n, p.commit_index < n → logTermAt p.log n ≠ p.current_term →
      (updateCommitIndex p).commit_index ≠ n) := by
  have hproj : (updateCommitIndex p).commit_index = newCommitIndex p := rfl
  have hcand : p.commit_index < newCommitIndex p →
      logTermAt p.log (newCommitIndex p) = p.current_term ∧
      majorityHave p (newCommitIndex p) = true := by
    intro hadv
    have hc := newCommitIndex_candidate p hadv
    unfold commitCandidate at hc
    simp only [Bool.and_eq_true, decide_eq_true_eq] at hc
    exact ⟨hc.1.2, hc.2⟩
  refine ⟨?_, ?_, ?_, ?_⟩
  · rw [hproj]
    exact foldl_max_init_le _ _
  · rw [hproj]
    exact hcand
  · intro n hn hgt hterm hmaj
    rw [hproj]
    have hmem : n ∈ (List.range (lastLogIndex p + 1)).filter
        (fun n => commitCandidate p n) := by
      refine List.mem_filter.mpr ⟨List.mem_range.mpr (by omega), ?_⟩
      unfold commitCandidate
      simp only [Bool.and_eq_true, decide_eq_true_eq]
      exact ⟨⟨hgt, hterm⟩, hmaj⟩
    exact foldl_max_mem_le _ _ _ hmem
  · intro n hgt hne heq
    rw [hproj] at heq
    have hadv : p.commit_index < newCommitIndex p := heq ▸ hgt
    have := (hcand hadv).1
    rw [heq] at this
    exact hne this

/-- The concrete leader of the C1 witness: 3 peers, term 5, log terms
`[0, 4, 5, 5]`, follower 1 fully matched, follower 2 at 0. -/
def c1Peer : RaftPeer :=
  { me := 0, peersCount := 3, current_term := 5, voted_for := none,
    log := [{ term := 0, index := 0, command := [] },
            { term := 4, index := 1, command := [10] },
            { term := 5, index := 2, command := [11] },
            { term := 5, index := 3, command := [12] }],
    commit_index := 0, last_applied := 0, next_index := [4, 4, 4],
    match_index := [0, 3, 0], role := Role.Leader }

/-- C1 witness: the theorem applied to `c1Peer`, where index 3 (term 5,
acknowledged by self and follower 1) must be reached. -/
theorem C1_witness :
    c1Peer.commit_index ≤ (updateCommitIndex c1Peer).commit_index ∧
    3 ≤ (updateCommitIndex c1Peer).commit_index := by
  have h := C1_commit_advancement c1Peer
  exact ⟨h.1, h.2.2.1 3 (by decide) (by decide) (by decide) (by decide)⟩

end Raft
